import Mathlib

/-!
Verification of the geometry-reduction pipeline of the IFC extractor.

The source scripts (`pages/wall-extract.py`, `pages/plan_extract.py`,
`pages/wall-extract2.py`) project triangulated 3-D meshes to 2-D plan views,
group the projected elements by elevation, reduce each wall's 2-D vertex cloud
to a centerline segment via principal-axis analysis, and deduplicate outline
edges for rendering.

Modelling conventions:
* Floating-point values are modelled by exact rationals (`ℚ`); `np.linalg.norm`
  produces a real number via `Real.sqrt`.
* `np.linalg.eigh` returns an orthonormal eigenbasis with eigenvalues in
  ascending order; the code takes `eigenvectors[:, -1]`, i.e. an eigenvector of
  the largest eigenvalue, which is determined only up to a nonzero scalar (the
  sign is explicitly unspecified by `eigh`).  The reducer is therefore modelled
  as parametric in that direction `u`, and `IsMaxEigenPair` captures the
  contract satisfied by `eigh`'s output.  All downstream values are invariant
  under positive rescaling of `u` (proved below as `start_point_smul` etc.), so
  dropping LAPACK's unit normalization loses nothing.
* `np.mean` of an empty array is NaN at runtime; in the exact model the empty
  mean is the division-by-zero junk value `0`.  No verified statement other
  than the explicitly flagged degenerate-cluster counterexample touches this
  junk value, and there only through inequalities that NaN also satisfies.
-/
namespace IfcExtract

/-- A projected 2-D vertex, as produced by `vertices[:, [0, 1]]`. -/
abbrev Vec2 := ℚ × ℚ

/-- Dot product of 2-D vectors (`np.dot`). -/
def dot (a b : Vec2) : ℚ := a.1 * b.1 + a.2 * b.2

/-- 2-D cross product, used to state non-collinearity of a vertex cloud. -/
def cross (a b : Vec2) : ℚ := a.1 * b.2 - a.2 * b.1

/-- Componentwise mean of the vertex list: `center = np.mean(vertices, axis=0)`. -/
def centroid (vs : List Vec2) : Vec2 :=
  ((vs.map Prod.fst).sum / (vs.length : ℚ), (vs.map Prod.snd).sum / (vs.length : ℚ))

/-- The symmetric 2×2 covariance matrix `np.cov(centered_pts.T)` of the centered
vertices, stored as `(a, b, c)` for `[[a, b], [b, c]]`.  NumPy's default
normalization divides by `n - 1`. -/
def covMatrix (vs : List Vec2) : ℚ × ℚ × ℚ :=
  ((vs.map (fun v => (v.1 - (centroid vs).1) ^ 2)).sum / ((vs.length : ℚ) - 1),
   (vs.map (fun v => (v.1 - (centroid vs).1) * (v.2 - (centroid vs).2))).sum / ((vs.length : ℚ) - 1),
   (vs.map (fun v => (v.2 - (centroid vs).2) ^ 2)).sum / ((vs.length : ℚ) - 1))

/-- Application of the symmetric matrix `(a, b, c)` = `[[a, b], [b, c]]` to a vector. -/
def covMul (m : ℚ × ℚ × ℚ) (v : Vec2) : Vec2 :=
  (m.1 * v.1 + m.2.1 * v.2, m.2.1 * v.1 + m.2.2 * v.2)

/-- Contract of `principal_direction = np.linalg.eigh(cov_matrix)[1][:, -1]`:
`u` is a nonzero eigenvector of the covariance matrix whose eigenvalue `l` is
maximal among its eigenvalues. -/
def IsMaxEigenPair (vs : List Vec2) (u : Vec2) (l : ℚ) : Prop :=
  u ≠ 0 ∧ covMul (covMatrix vs) u = l • u ∧
    ∀ (m : ℚ) (v : Vec2), v ≠ 0 → covMul (covMatrix vs) v = m • v → m ≤ l

/-- Projected scalar of one vertex: `np.dot(centered_pts, principal_direction)`
evaluated at `v`. -/
def projVal (vs : List Vec2) (u : Vec2) (v : Vec2) : ℚ := dot (v - centroid vs) u

/-- The list `projected = np.dot(centered_pts, principal_direction)`. -/
def projected (vs : List Vec2) (u : Vec2) : List ℚ := vs.map (projVal vs u)

/-- Model of `np.mean(projected)`. -/
def meanProj (vs : List Vec2) (u : Vec2) : ℚ :=
  (projected vs u).sum / ((projected vs u).length : ℚ)

/-- Model of `points_cluster1 = vertices[projected < np.mean(projected)]`. -/
def points_cluster1 (vs : List Vec2) (u : Vec2) : List Vec2 :=
  vs.filter (fun v => projVal vs u v < meanProj vs u)

/-- Model of `points_cluster2 = vertices[projected >= np.mean(projected)]`. -/
def points_cluster2 (vs : List Vec2) (u : Vec2) : List Vec2 :=
  vs.filter (fun v => projVal vs u v ≥ meanProj vs u)

/-- Model of `start_point = np.mean(points_cluster1, axis=0)`. -/
def start_point (vs : List Vec2) (u : Vec2) : Vec2 := centroid (points_cluster1 vs u)

/-- Model of `end_point = np.mean(points_cluster2, axis=0)`. -/
def end_point (vs : List Vec2) (u : Vec2) : Vec2 := centroid (points_cluster2 vs u)

/-- Model of `length = np.linalg.norm(end_point - start_point)`. -/
noncomputable def wallLength (vs : List Vec2) (u : Vec2) : ℝ :=
  Real.sqrt ((((end_point vs u).1 - (start_point vs u).1 : ℚ) : ℝ) ^ 2
    + (((end_point vs u).2 - (start_point vs u).2 : ℚ) : ℝ) ^ 2)

/-- A vertex cloud containing three points spanning a proper triangle. -/
def NonCollinear (vs : List Vec2) : Prop :=
  ∃ p ∈ vs, ∃ q ∈ vs, ∃ r ∈ vs, cross (q - p) (r - p) ≠ 0

/-- Embedding of a 2-D vertex into the Euclidean plane. -/
noncomputable def toE (v : Vec2) : EuclideanSpace ℝ (Fin 2) := ![(v.1 : ℝ), (v.2 : ℝ)]

/-- Start point as the spec words it: the centroid, in original coordinates, of
the vertices whose projected scalar is strictly below the mean projected scalar. -/
def specStart (vs : List Vec2) (u : Vec2) : Vec2 :=
  centroid (vs.filter (fun v =>
    dot (v - centroid vs) u < (vs.map (fun w => dot (w - centroid vs) u)).sum / (vs.length : ℚ)))

/-- End point as the spec words it: the centroid of the vertices whose projected
scalar is at or above the mean projected scalar. -/
def specEnd (vs : List Vec2) (u : Vec2) : Vec2 :=
  centroid (vs.filter (fun v =>
    dot (v - centroid vs) u ≥ (vs.map (fun w => dot (w - centroid vs) u)).sum / (vs.length : ℚ)))

/-- The 8 corner points of the synthetic straight box wall with X ∈ {0, 1},
Y ∈ {0, 5}, Z ∈ {0, 3}, projected to 2-D (each plan-view corner appears twice,
once for Z = 0 and once for Z = 3). -/
def boxXY : List Vec2 := [(0, 0), (1, 0), (0, 5), (1, 5), (0, 0), (1, 0), (0, 5), (1, 5)]

/-- The same box wall with the roles of X and Y swapped: X ∈ {0, 5}, Y ∈ {0, 1}. -/
def boxYX : List Vec2 := [(0, 0), (0, 1), (5, 0), (5, 1), (0, 0), (0, 1), (5, 0), (5, 1)]

/-- A degenerate wall cloud: three coincident vertices, so every projected
scalar is identical and the covariance matrix is zero. -/
def degVs : List Vec2 := [(1, 2), (1, 2), (1, 2)]

/-- A wall cloud with only two vertices (fewer than the three the spec demands). -/
def twoVs : List Vec2 := [(0, 0), (1, 0)]

/-- A triangulated mesh as delivered by the shape engine
(`shape.geometry.verts` / `shape.geometry.faces`): a flat coordinate list
(x0, y0, z0, x1, ...) and a flat triangle index list. -/
structure Mesh3D where
  verts : List ℚ
  faces : List ℕ

/-- Model of `np.array(l).reshape((-1, 3))`: chunk a flat list into consecutive triples.
(NumPy rejects a length not divisible by 3; the model drops a ragged tail, and
the verified statements assume divisibility where it matters.) -/
def reshape3 {α : Type} : List α → List (α × α × α)
  | a :: b :: c :: rest => (a, b, c) :: reshape3 rest
  | _ => []

/-- The mesh's 3-D point sequence, `vertices = np.array(verts).reshape((-1, 3))`. -/
def meshPoints (m : Mesh3D) : List (ℚ × ℚ × ℚ) := reshape3 m.verts

/-- The mesh's face index triples, `np.array(faces).reshape((-1, 3))`. -/
def meshFaces (m : Mesh3D) : List (ℕ × ℕ × ℕ) := reshape3 m.faces

/-- One row of `vertices[:, [0, 1]]`: drop the Z coordinate. -/
def vert2 (p : ℚ × ℚ × ℚ) : Vec2 := (p.1, p.2.1)

/-- Model of `np.mean(vertices[:, 2])`, the elevation fallback used by `plan_extract.py`. -/
def meanZ (m : Mesh3D) : ℚ :=
  ((meshPoints m).map (fun p => p.2.2)).sum / ((meshPoints m).length : ℚ)

/-- The `element_info` dict: element type, display name, 2-D vertices, face
index list, elevation. -/
structure ProjectedElement where
  type : String
  name : String
  vertices : List Vec2
  faces : List (ℕ × ℕ × ℕ)
  elevation : ℚ

/-- The projection block shared by the slab and wall loops: drop Z from every
point (`vertices[:, [0, 1]]`), pass the face list through unchanged, and tag
the element with type, display name and elevation. -/
def projectMesh (ty nm : String) (m : Mesh3D) (elevation : ℚ) : ProjectedElement :=
  { type := ty, name := nm,
    vertices := (meshPoints m).map vert2,
    faces := meshFaces m,
    elevation := elevation }

/-- A concrete two-point, one-triangle mesh. -/
def demoMesh : Mesh3D := { verts := [1, 2, 3, 4, 5, 6], faces := [0, 1, 2] }

/-- Grouping key: `round(elevation, 2)`.  Python's float `round` uses banker's
rounding at exact half-hundredths; the model rounds halves up.  The two rules
agree on every value these claims touch (the only half-hundredth involved,
2.125, rounds to 2.12 resp. 2.13 — both different from 2.125, which is all C10
uses). -/
def round2 (q : ℚ) : ℚ := (⌊q * 100 + 1 / 2⌋ : ℚ) / 100

/-- Rounding `round(x, 2)` applied to the real-valued length. -/
noncomputable def round2R (x : ℝ) : ℝ := (⌊x * 100 + 1 / 2⌋ : ℝ) / 100

/-- Model of `unique_elevations = sorted(set(round(s['elevation'], 2) for s in element_data))`
(the sort order is irrelevant to grouping and not modelled). -/
def uniqueElevations (es : List ProjectedElement) : List ℚ :=
  (es.map (fun e => round2 e.elevation)).dedup

/-- Model of `level_elements = [e for e in element_data if round(e['elevation'], 2) in selected_elevations]`. -/
def levelElements (es : List ProjectedElement) (selected : List ℚ) : List ProjectedElement :=
  es.filter (fun e => round2 e.elevation ∈ selected)

/-- Model of `elevation_elements = [e for e in level_elements if round(e['elevation'], 2) == elevation]`:
the elements of the group keyed by one rounded elevation. -/
def elevationElements (es : List ProjectedElement) (elevation : ℚ) : List ProjectedElement :=
  es.filter (fun e => round2 e.elevation = elevation)

/-- A slab at elevation 2.001. -/
def demoA : ProjectedElement :=
  { type := "Slab", name := "A", vertices := [], faces := [], elevation := 2.001 }

/-- A slab at elevation 2.002. -/
def demoB : ProjectedElement :=
  { type := "Slab", name := "B", vertices := [], faces := [], elevation := 2.002 }

/-- A slab at elevation 2.15. -/
def demoC : ProjectedElement :=
  { type := "Slab", name := "C", vertices := [], faces := [], elevation := 2.15 }

/-- Model of `tuple(sorted([a, b]))`: an undirected edge canonicalized by sorting its two
vertex indices. -/
def sortedEdge (a b : ℕ) : ℕ × ℕ := if a ≤ b then (a, b) else (b, a)

/-- The edges of one face: every consecutive index pair including the
wrap-around pair — `tuple(sorted([face[i], face[(i+1) % len(face)]]))` for
`i in range(len(face))`. -/
def faceEdges (face : List ℕ) : List (ℕ × ℕ) :=
  (List.range face.length).map
    (fun i => sortedEdge (face.getD i 0) (face.getD ((i + 1) % face.length) 0))

/-- The `edges = set()` accumulated over all faces: the deduplicated undirected
edge set.  The plot loop `for edge in edges` then emits exactly one outline
primitive per set element. -/
def edges (faces : List (List ℕ)) : Finset (ℕ × ℕ) :=
  ((faces.map faceEdges).flatten).toFinset

/-- A building element as seen through the attribute access in the scripts:
`none` models the absence of a usable `Name` attribute (the
`hasattr(element, 'Name')` test failing). -/
structure IfcElement where
  name : Option String

/-- Model of `element.Name if hasattr(element, 'Name') else "Unnamed"`. -/
def elementDisplayName (e : IfcElement) : String :=
  match e.name with
  | some n => n
  | none => "Unnamed"

/-- The wall `element_info` dict of `wall-extract.py` (elevation is the
containing storey's `float(storey.Elevation)`). -/
def wallElementInfo (e : IfcElement) (m : Mesh3D) (storeyElevation : ℚ) : ProjectedElement :=
  projectMesh "Wall" (elementDisplayName e) m storeyElevation

/-- The slab `element_info` dict of `plan_extract.py` (elevation is the mean Z
of the mesh's points). -/
def slabElementInfo (e : IfcElement) (m : Mesh3D) : ProjectedElement :=
  projectMesh "Slab" (elementDisplayName e) m (meanZ m)

/-- One `wall_data` row of the simplified wall table. -/
structure WallRow where
  name : String
  elevation : ℚ
  startX : ℚ
  startY : ℚ
  endX : ℚ
  endY : ℚ
  length : ℝ

/-- The `wall_data` row built for one wall element: name, storey elevation and
centerline coordinates, each rounded to 2 decimals (`round(x, 2)`). -/
noncomputable def wallRowOf (el : ProjectedElement) (u : Vec2) : WallRow :=
  { name := el.name,
    elevation := round2 el.elevation,
    startX := round2 (start_point el.vertices u).1,
    startY := round2 (start_point el.vertices u).2,
    endX := round2 (end_point el.vertices u).1,
    endY := round2 (end_point el.vertices u).2,
    length := round2R (wallLength el.vertices u) }

/-- Model of `level_walls = [w for w in wall_data if w['Elevation'] == storey_data[storey_name]['elevation']]`:
the rounded row elevation is compared with the raw storey elevation. -/
def levelWalls (rows : List WallRow) (storeyElevation : ℚ) : List WallRow :=
  rows.filter (fun w => w.elevation = storeyElevation)

/- Small list-sum helper lemmas. -/
theorem sum_map_add {α : Type} (l : List α) (f g : α → ℚ) :
    (l.map (fun x => f x + g x)).sum = (l.map f).sum + (l.map g).sum := by
  induction l with
  | nil => simp
  | cons a t ih => simp only [List.map_cons, List.sum_cons, ih]; ring

theorem sum_map_mul_left {α : Type} (l : List α) (f : α → ℚ) (c : ℚ) :
    (l.map (fun x => c * f x)).sum = c * (l.map f).sum := by
  induction l with
  | nil => simp
  | cons a t ih => simp only [List.map_cons, List.sum_cons, ih]; ring

theorem sum_map_const {α : Type} (l : List α) (c : ℚ) :
    (l.map (fun _ => c)).sum = (l.length : ℚ) * c := by
  induction l with
  | nil => simp
  | cons a t ih => simp only [List.map_cons, List.sum_cons, List.length_cons, ih]; push_cast; ring

theorem sum_pos_of_mem {l : List ℚ} (x : ℚ) (h0 : ∀ y ∈ l, 0 ≤ y)
    (hx : x ∈ l) (hxpos : 0 < x) : 0 < l.sum := by
  have hle : x ≤ l.sum := List.single_le_sum h0 x hx
  linarith

/-- The mean projected scalar, written out as the spec words it. -/
theorem meanProj_eq (vs : List Vec2) (u : Vec2) :
    meanProj vs u = (vs.map (fun w => dot (w - centroid vs) u)).sum / (vs.length : ℚ) := by
  simp only [meanProj, projected, List.length_map]
  rfl

theorem dist_toE (a b : Vec2) :
    dist (toE a) (toE b)
      = Real.sqrt (((b.1 - a.1 : ℚ) : ℝ) ^ 2 + ((b.2 - a.2 : ℚ) : ℝ) ^ 2) := by
  rw [EuclideanSpace.dist_eq, Fin.sum_univ_two]
  congr 1
  have e0a : toE a 0 = ((a.1 : ℚ) : ℝ) := rfl
  have e1a : toE a 1 = ((a.2 : ℚ) : ℝ) := rfl
  have e0b : toE b 0 = ((b.1 : ℚ) : ℝ) := rfl
  have e1b : toE b 1 = ((b.2 : ℚ) : ℝ) := rfl
  rw [e0a, e1a, e0b, e1b, Real.dist_eq, Real.dist_eq, sq_abs, sq_abs]
  push_cast
  ring

/-- C1: for every 2-D wall vertex cloud with at least 3 vertices and a
non-degenerate principal axis, the reducer's start point is the centroid of the
vertices projecting strictly below the mean projected scalar, its end point is
the centroid of the vertices projecting at or above the mean, and its length is
the Euclidean distance between start and end point. -/
theorem wall_reducer_matches_spec (vs : List Vec2) (u : Vec2)
    (h3 : 3 ≤ vs.length)
    (hnd : ∃ v ∈ vs, ∃ w ∈ vs, projVal vs u v ≠ projVal vs u w) :
    start_point vs u = specStart vs u ∧ end_point vs u = specEnd vs u ∧
      wallLength vs u = dist (toE (start_point vs u)) (toE (end_point vs u)) := by
  refine ⟨?_, ?_, ?_⟩
  · simp only [start_point, points_cluster1, specStart, projVal, meanProj_eq]
  · simp only [end_point, points_cluster2, specEnd, projVal, meanProj_eq]
  · rw [dist_toE]
    rfl

/-- Witness for C1: the box wall's 8-point cloud with the principal direction (0, 1). -/
theorem wall_reducer_matches_spec_witness :
    (3 ≤ boxXY.length ∧
      ∃ v ∈ boxXY, ∃ w ∈ boxXY, projVal boxXY (0, 1) v ≠ projVal boxXY (0, 1) w) ∧
    (start_point boxXY (0, 1) = specStart boxXY (0, 1) ∧
      end_point boxXY (0, 1) = specEnd boxXY (0, 1) ∧
      wallLength boxXY (0, 1)
        = dist (toE (start_point boxXY (0, 1))) (toE (end_point boxXY (0, 1)))) := by
  have h3 : 3 ≤ boxXY.length := by norm_num [boxXY]
  have hnd : ∃ v ∈ boxXY, ∃ w ∈ boxXY, projVal boxXY (0, 1) v ≠ projVal boxXY (0, 1) w := by
    refine ⟨(0, 0), by norm_num [boxXY], (0, 5), by norm_num [boxXY], ?_⟩
    norm_num [projVal, dot, centroid, boxXY, Prod.mk_sub_mk]
  exact ⟨⟨h3, hnd⟩, wall_reducer_matches_spec boxXY (0, 1) h3 hnd⟩

theorem sum_map_sub {α : Type} (l : List α) (f g : α → ℚ) :
    (l.map (fun x => f x - g x)).sum = (l.map f).sum - (l.map g).sum := by
  induction l with
  | nil => simp
  | cons a t ih => simp only [List.map_cons, List.sum_cons, ih]; ring

theorem centroid_perm {vs vs' : List Vec2} (h : vs'.Perm vs) : centroid vs' = centroid vs := by
  unfold centroid
  rw [(h.map Prod.fst).sum_eq, (h.map Prod.snd).sum_eq, h.length_eq]

theorem projVal_perm {vs vs' : List Vec2} (u : Vec2) (h : vs'.Perm vs) :
    projVal vs' u = projVal vs u := by
  funext v
  unfold projVal
  rw [centroid_perm h]

theorem meanProj_perm {vs vs' : List Vec2} (u : Vec2) (h : vs'.Perm vs) :
    meanProj vs' u = meanProj vs u := by
  unfold meanProj projected
  rw [projVal_perm u h, (h.map (projVal vs u)).sum_eq, List.length_map, List.length_map,
    h.length_eq]

theorem points_cluster1_perm {vs vs' : List Vec2} (u : Vec2) (h : vs'.Perm vs) :
    (points_cluster1 vs' u).Perm (points_cluster1 vs u) := by
  unfold points_cluster1
  simp only [projVal_perm u h, meanProj_perm u h]
  exact h.filter _

theorem points_cluster2_perm {vs vs' : List Vec2} (u : Vec2) (h : vs'.Perm vs) :
    (points_cluster2 vs' u).Perm (points_cluster2 vs u) := by
  unfold points_cluster2
  simp only [projVal_perm u h, meanProj_perm u h]
  exact h.filter _

theorem start_point_perm {vs vs' : List Vec2} (u : Vec2) (h : vs'.Perm vs) :
    start_point vs' u = start_point vs u :=
  centroid_perm (points_cluster1_perm u h)

theorem end_point_perm {vs vs' : List Vec2} (u : Vec2) (h : vs'.Perm vs) :
    end_point vs' u = end_point vs u :=
  centroid_perm (points_cluster2_perm u h)

theorem sum_map_fst_add (vs : List Vec2) (t : Vec2) :
    (vs.map (fun v => (v + t).1)).sum = (vs.map Prod.fst).sum + (vs.length : ℚ) * t.1 := by
  induction vs with
  | nil => simp
  | cons a l ih =>
    simp only [List.map_cons, List.sum_cons, List.length_cons, Prod.fst_add] at ih ⊢
    rw [ih]
    push_cast
    ring

theorem sum_map_snd_add (vs : List Vec2) (t : Vec2) :
    (vs.map (fun v => (v + t).2)).sum = (vs.map Prod.snd).sum + (vs.length : ℚ) * t.2 := by
  induction vs with
  | nil => simp
  | cons a l ih =>
    simp only [List.map_cons, List.sum_cons, List.length_cons, Prod.snd_add] at ih ⊢
    rw [ih]
    push_cast
    ring

theorem centroid_map_add {vs : List Vec2} (t : Vec2) (h : vs ≠ []) :
    centroid (vs.map (fun v => v + t)) = centroid vs + t := by
  have hn : ((vs.length : ℚ)) ≠ 0 := by
    exact_mod_cast Nat.pos_iff_ne_zero.mp (List.length_pos.mpr h)
  unfold centroid
  rw [List.map_map, List.map_map]
  have e1 : (Prod.fst ∘ fun v : Vec2 => v + t) = (fun v : Vec2 => (v + t).1) := rfl
  have e2 : (Prod.snd ∘ fun v : Vec2 => v + t) = (fun v : Vec2 => (v + t).2) := rfl
  rw [e1, e2, sum_map_fst_add, sum_map_snd_add, List.length_map]
  apply Prod.ext
  · dsimp only [Prod.fst_add]
    rw [add_div, mul_comm, mul_div_assoc, div_self hn, mul_one]
  · dsimp only [Prod.snd_add]
    rw [add_div, mul_comm, mul_div_assoc, div_self hn, mul_one]

theorem projVal_map_add {vs : List Vec2} (u t : Vec2) (h : vs ≠ []) (v : Vec2) :
    projVal (vs.map (fun w => w + t)) u (v + t) = projVal vs u v := by
  unfold projVal dot
  rw [centroid_map_add t h]
  simp only [Prod.fst_sub, Prod.snd_sub, Prod.fst_add, Prod.snd_add]
  ring

theorem projected_map_add {vs : List Vec2} (u t : Vec2) (h : vs ≠ []) :
    projected (vs.map (fun w => w + t)) u = projected vs u := by
  unfold projected
  rw [List.map_map]
  exact List.map_congr_left (fun a _ => projVal_map_add u t h a)

theorem meanProj_map_add {vs : List Vec2} (u t : Vec2) (h : vs ≠ []) :
    meanProj (vs.map (fun w => w + t)) u = meanProj vs u := by
  unfold meanProj
  rw [projected_map_add u t h]

theorem points_cluster1_map_add {vs : List Vec2} (u t : Vec2) (h : vs ≠ []) :
    points_cluster1 (vs.map (fun w => w + t)) u = (points_cluster1 vs u).map (fun w => w + t) := by
  unfold points_cluster1
  rw [List.filter_map]
  congr 1
  apply List.filter_congr
  intro a _
  simp only [Function.comp_apply, projVal_map_add u t h, meanProj_map_add u t h]

theorem points_cluster2_map_add {vs : List Vec2} (u t : Vec2) (h : vs ≠ []) :
    points_cluster2 (vs.map (fun w => w + t)) u = (points_cluster2 vs u).map (fun w => w + t) := by
  unfold points_cluster2
  rw [List.filter_map]
  congr 1
  apply List.filter_congr
  intro a _
  simp only [Function.comp_apply, projVal_map_add u t h, meanProj_map_add u t h]

theorem sum_projected_eq (vs : List Vec2) (u : Vec2) (h : vs ≠ []) :
    (projected vs u).sum = (vs.length : ℚ) * meanProj vs u := by
  have hn : ((vs.length : ℚ)) ≠ 0 := by
    exact_mod_cast Nat.pos_iff_ne_zero.mp (List.length_pos.mpr h)
  unfold meanProj projected
  rw [List.length_map, mul_comm, div_mul_cancel₀ _ hn]

theorem exists_proj_ne {vs : List Vec2} {u : Vec2} (hnc : NonCollinear vs) (hu : u ≠ 0) :
    ∃ v ∈ vs, ∃ w ∈ vs, projVal vs u v ≠ projVal vs u w := by
  obtain ⟨p, hp, q, hq, r, hr, hcross⟩ := hnc
  by_contra hno
  push_neg at hno
  have hq' : projVal vs u q = projVal vs u p := hno q hq p hp
  have hr' : projVal vs u r = projVal vs u p := hno r hr p hp
  have d1 : (q - p).1 * u.1 + (q - p).2 * u.2 = 0 := by
    have e : projVal vs u q - projVal vs u p = (q - p).1 * u.1 + (q - p).2 * u.2 := by
      simp only [projVal, dot, Prod.fst_sub, Prod.snd_sub]
      ring
    rw [← e, hq', sub_self]
  have d2 : (r - p).1 * u.1 + (r - p).2 * u.2 = 0 := by
    have e : projVal vs u r - projVal vs u p = (r - p).1 * u.1 + (r - p).2 * u.2 := by
      simp only [projVal, dot, Prod.fst_sub, Prod.snd_sub]
      ring
    rw [← e, hr', sub_self]
  apply hcross
  have hu' : u.1 ≠ 0 ∨ u.2 ≠ 0 := by
    by_contra hb
    push_neg at hb
    exact hu (Prod.ext hb.1 hb.2)
  have e1 : cross (q - p) (r - p) * u.1 = 0 := by
    simp only [cross]
    linear_combination (r - p).2 * d1 - (q - p).2 * d2
  have e2 : cross (q - p) (r - p) * u.2 = 0 := by
    simp only [cross]
    linear_combination (-(r - p).1) * d1 + (q - p).1 * d2
  rcases hu' with h | h
  · exact (mul_eq_zero.mp e1).resolve_right h
  · exact (mul_eq_zero.mp e2).resolve_right h

theorem exists_proj_split {vs : List Vec2} {u : Vec2} (h0 : vs ≠ [])
    (hne : ∃ v ∈ vs, ∃ w ∈ vs, projVal vs u v ≠ projVal vs u w) :
    (∃ v ∈ vs, projVal vs u v < meanProj vs u) ∧
      (∃ v ∈ vs, meanProj vs u ≤ projVal vs u v) := by
  have hsum := sum_projected_eq vs u h0
  constructor
  · by_contra hno
    push_neg at hno
    obtain ⟨v0, hv0, w0, hw0, hvw⟩ := hne
    have hhigh : ∃ x ∈ vs, meanProj vs u < projVal vs u x := by
      rcases lt_or_gt_of_ne hvw with hlt | hgt
      · exact ⟨w0, hw0, lt_of_le_of_lt (hno v0 hv0) hlt⟩
      · exact ⟨v0, hv0, lt_of_le_of_lt (hno w0 hw0) hgt⟩
    obtain ⟨x0, hx0, hx0gt⟩ := hhigh
    have hzero : (vs.map (fun v => projVal vs u v - meanProj vs u)).sum = 0 := by
      rw [sum_map_sub, sum_map_const]
      have : (vs.map (projVal vs u)).sum = (vs.length : ℚ) * meanProj vs u := hsum
      rw [this]
      ring
    have hpos : 0 < (vs.map (fun v => projVal vs u v - meanProj vs u)).sum := by
      apply sum_pos_of_mem (projVal vs u x0 - meanProj vs u)
      · intro y hy
        obtain ⟨v, hv, rfl⟩ := List.mem_map.mp hy
        exact sub_nonneg.mpr (hno v hv)
      · exact List.mem_map.mpr ⟨x0, hx0, rfl⟩
      · exact sub_pos.mpr hx0gt
    rw [hzero] at hpos
    exact lt_irrefl 0 hpos
  · by_contra hno
    push_neg at hno
    have hzero : (vs.map (fun v => meanProj vs u - projVal vs u v)).sum = 0 := by
      rw [sum_map_sub, sum_map_const]
      have : (vs.map (projVal vs u)).sum = (vs.length : ℚ) * meanProj vs u := hsum
      rw [this]
      ring
    have hpos : 0 < (vs.map (fun v => meanProj vs u - projVal vs u v)).sum := by
      apply List.sum_pos
      · intro y hy
        obtain ⟨v, hv, rfl⟩ := List.mem_map.mp hy
        exact sub_pos.mpr (hno v hv)
      · simpa using h0
    rw [hzero] at hpos
    exact lt_irrefl 0 hpos

theorem clusters_ne_nil {vs : List Vec2} {u : Vec2} (h0 : vs ≠ [])
    (hne : ∃ v ∈ vs, ∃ w ∈ vs, projVal vs u v ≠ projVal vs u w) :
    points_cluster1 vs u ≠ [] ∧ points_cluster2 vs u ≠ [] := by
  obtain ⟨⟨v1, hv1, hlt⟩, ⟨v2, hv2, hge⟩⟩ := exists_proj_split h0 hne
  constructor
  · have hmem : v1 ∈ points_cluster1 vs u := by
      unfold points_cluster1
      exact List.mem_filter.mpr ⟨hv1, by simpa using hlt⟩
    exact List.ne_nil_of_mem hmem
  · have hmem : v2 ∈ points_cluster2 vs u := by
      unfold points_cluster2
      exact List.mem_filter.mpr ⟨hv2, by simpa using hge⟩
    exact List.ne_nil_of_mem hmem

/-- C2: for every wall vertex cloud with at least 3 non-collinear points, the
computed centerline length is unchanged by (a) any permutation of the input
vertex order and (b) translation of every vertex by one constant vector.  (The
direction `u` is `eigh`'s output; it is a deterministic function of the
covariance matrix, which is itself invariant under both transformations, so the
same `u` is used on both sides.) -/
theorem wall_length_invariant (vs vs' : List Vec2) (u t : Vec2)
    (h3 : 3 ≤ vs.length) (hnc : NonCollinear vs) (hu : u ≠ 0) :
    (vs'.Perm vs → wallLength vs' u = wallLength vs u) ∧
      wallLength (vs.map (fun v => v + t)) u = wallLength vs u := by
  have h0 : vs ≠ [] := by
    intro hnil
    rw [hnil] at h3
    simp at h3
  constructor
  · intro hp
    unfold wallLength
    rw [start_point_perm u hp, end_point_perm u hp]
  · obtain ⟨hc1, hc2⟩ := clusters_ne_nil h0 (exists_proj_ne hnc hu)
    have hs : start_point (vs.map (fun v => v + t)) u = start_point vs u + t := by
      unfold start_point
      rw [points_cluster1_map_add u t h0]
      exact centroid_map_add t hc1
    have he : end_point (vs.map (fun v => v + t)) u = end_point vs u + t := by
      unfold end_point
      rw [points_cluster2_map_add u t h0]
      exact centroid_map_add t hc2
    unfold wallLength
    rw [hs, he]
    congr 1
    push_cast [Prod.fst_add, Prod.snd_add]
    ring

/-- Witness for C2: the box wall cloud, its reversal, direction (0, 1), shift (1, 1). -/
theorem wall_length_invariant_witness :
    (3 ≤ boxXY.length ∧ NonCollinear boxXY ∧ ((0, 1) : Vec2) ≠ 0) ∧
    ((boxXY.reverse.Perm boxXY → wallLength boxXY.reverse (0, 1) = wallLength boxXY (0, 1)) ∧
      wallLength (boxXY.map (fun v => v + (1, 1))) (0, 1) = wallLength boxXY (0, 1)) := by
  have h3 : 3 ≤ boxXY.length := by norm_num [boxXY]
  have hnc : NonCollinear boxXY := by
    refine ⟨(0, 0), by norm_num [boxXY], (1, 0), by norm_num [boxXY],
      (0, 5), by norm_num [boxXY], ?_⟩
    norm_num [cross, Prod.mk_sub_mk]
  have hu : ((0, 1) : Vec2) ≠ 0 := by
    simp [Prod.ext_iff]
  exact ⟨⟨h3, hnc, hu⟩, wall_length_invariant boxXY boxXY.reverse (0, 1) (1, 1) h3 hnc hu⟩

/- The reducer's output is invariant under positive rescaling of the principal
direction, so the missing LAPACK unit normalization is irrelevant. -/
theorem projVal_smul (vs : List Vec2) (u : Vec2) (c : ℚ) (v : Vec2) :
    projVal vs (c • u) v = c * projVal vs u v := by
  simp only [projVal, dot, Prod.smul_fst, Prod.smul_snd, smul_eq_mul]
  ring

theorem projected_smul (vs : List Vec2) (u : Vec2) (c : ℚ) :
    projected vs (c • u) = (projected vs u).map (fun x => c * x) := by
  unfold projected
  rw [List.map_map]
  exact List.map_congr_left (fun a _ => projVal_smul vs u c a)

theorem meanProj_smul (vs : List Vec2) (u : Vec2) (c : ℚ) :
    meanProj vs (c • u) = c * meanProj vs u := by
  unfold meanProj
  rw [projected_smul, List.length_map, sum_map_mul_left (projected vs u) (fun x => x) c,
    mul_div_assoc, List.map_id_fun', id_eq]

theorem points_cluster1_smul (vs : List Vec2) (u : Vec2) {c : ℚ} (hc : 0 < c) :
    points_cluster1 vs (c • u) = points_cluster1 vs u := by
  unfold points_cluster1
  apply List.filter_congr
  intro a _
  simp only [projVal_smul, meanProj_smul]
  exact decide_eq_decide.mpr (mul_lt_mul_left hc)

theorem points_cluster2_smul (vs : List Vec2) (u : Vec2) {c : ℚ} (hc : 0 < c) :
    points_cluster2 vs (c • u) = points_cluster2 vs u := by
  unfold points_cluster2
  apply List.filter_congr
  intro a _
  simp only [projVal_smul, meanProj_smul, ge_iff_le]
  exact decide_eq_decide.mpr (mul_le_mul_left hc)

theorem start_point_smul (vs : List Vec2) (u : Vec2) {c : ℚ} (hc : 0 < c) :
    start_point vs (c • u) = start_point vs u := by
  unfold start_point
  rw [points_cluster1_smul vs u hc]

theorem end_point_smul (vs : List Vec2) (u : Vec2) {c : ℚ} (hc : 0 < c) :
    end_point vs (c • u) = end_point vs u := by
  unfold end_point
  rw [points_cluster2_smul vs u hc]

theorem wallLength_smul (vs : List Vec2) (u : Vec2) {c : ℚ} (hc : 0 < c) :
    wallLength vs (c • u) = wallLength vs u := by
  unfold wallLength
  rw [start_point_smul vs u hc, end_point_smul vs u hc]

theorem boxXY_cov : covMatrix boxXY = (2/7, 0, 50/7) := by
  norm_num [covMatrix, centroid, boxXY, Prod.ext_iff]

theorem boxYX_cov : covMatrix boxYX = (50/7, 0, 2/7) := by
  norm_num [covMatrix, centroid, boxYX, Prod.ext_iff]

theorem boxXY_dir {u : Vec2} {l : ℚ} (h : IsMaxEigenPair boxXY u l) : u.1 = 0 ∧ u.2 ≠ 0 := by
  obtain ⟨hu, heq, hmax⟩ := h
  rw [boxXY_cov] at heq hmax
  have h50 : (50/7 : ℚ) ≤ l := by
    apply hmax (50/7) (0, 1)
    · simp [Prod.ext_iff]
    · norm_num [covMul, Prod.ext_iff, Prod.smul_fst, Prod.smul_snd, smul_eq_mul]
  have h1 : (2/7 : ℚ) * u.1 = l * u.1 := by
    have := congrArg Prod.fst heq
    simpa [covMul, Prod.smul_fst, smul_eq_mul] using this
  have hu1 : u.1 = 0 := by
    by_contra h1ne
    have hl : (2/7 : ℚ) = l := mul_right_cancel₀ h1ne h1
    rw [← hl] at h50
    norm_num at h50
  refine ⟨hu1, fun hu2 => hu (Prod.ext hu1 hu2)⟩

theorem boxYX_dir {u : Vec2} {l : ℚ} (h : IsMaxEigenPair boxYX u l) : u.2 = 0 ∧ u.1 ≠ 0 := by
  obtain ⟨hu, heq, hmax⟩ := h
  rw [boxYX_cov] at heq hmax
  have h50 : (50/7 : ℚ) ≤ l := by
    apply hmax (50/7) (1, 0)
    · simp [Prod.ext_iff]
    · norm_num [covMul, Prod.ext_iff, Prod.smul_fst, Prod.smul_snd, smul_eq_mul]
  have h2 : (2/7 : ℚ) * u.2 = l * u.2 := by
    have := congrArg Prod.snd heq
    simpa [covMul, Prod.smul_snd, smul_eq_mul] using this
  have hu2 : u.2 = 0 := by
    by_contra h2ne
    have hl : (2/7 : ℚ) = l := mul_right_cancel₀ h2ne h2
    rw [← hl] at h50
    norm_num at h50
  refine ⟨hu2, fun hu1 => hu (Prod.ext hu1 hu2)⟩

theorem real_sqrt_25 : Real.sqrt 25 = 5 := by
  rw [show (25 : ℝ) = 5 ^ 2 by norm_num, Real.sqrt_sq (by norm_num : (0:ℝ) ≤ 5)]

theorem boxXY_clusters_pos :
    points_cluster1 boxXY (0, 1) = [(0, 0), (1, 0), (0, 0), (1, 0)] ∧
      points_cluster2 boxXY (0, 1) = [(0, 5), (1, 5), (0, 5), (1, 5)] := by
  have hc : centroid boxXY = (1/2, 5/2) := by
    norm_num [centroid, boxXY, Prod.ext_iff]
  have hm : meanProj boxXY (0, 1) = 0 := by
    norm_num [meanProj, projected, projVal, dot, centroid, boxXY, Prod.mk_sub_mk]
  constructor
  · rw [points_cluster1]
    norm_num [projVal, dot, centroid, meanProj, projected, boxXY, List.filter, Prod.mk_sub_mk]
  · rw [points_cluster2]
    norm_num [projVal, dot, centroid, meanProj, projected, boxXY, List.filter, Prod.mk_sub_mk]

theorem boxXY_clusters_neg :
    points_cluster1 boxXY (0, -1) = [(0, 5), (1, 5), (0, 5), (1, 5)] ∧
      points_cluster2 boxXY (0, -1) = [(0, 0), (1, 0), (0, 0), (1, 0)] := by
  have hc : centroid boxXY = (1/2, 5/2) := by
    norm_num [centroid, boxXY, Prod.ext_iff]
  have hm : meanProj boxXY (0, -1) = 0 := by
    norm_num [meanProj, projected, projVal, dot, centroid, boxXY, Prod.mk_sub_mk]
  constructor
  · rw [points_cluster1]
    norm_num [projVal, dot, centroid, meanProj, projected, boxXY, List.filter, Prod.mk_sub_mk]
  · rw [points_cluster2]
    norm_num [projVal, dot, centroid, meanProj, projected, boxXY, List.filter, Prod.mk_sub_mk]

theorem wallLength_boxXY_pos : wallLength boxXY (0, 1) = 5 := by
  obtain ⟨h1, h2⟩ := boxXY_clusters_pos
  have hs : start_point boxXY (0, 1) = (1/2, 0) := by
    rw [start_point, h1]
    norm_num [centroid, Prod.ext_iff]
  have he : end_point boxXY (0, 1) = (1/2, 5) := by
    rw [end_point, h2]
    norm_num [centroid, Prod.ext_iff]
  rw [wallLength, hs, he]
  norm_num [real_sqrt_25]

theorem wallLength_boxXY_neg : wallLength boxXY (0, -1) = 5 := by
  obtain ⟨h1, h2⟩ := boxXY_clusters_neg
  have hs : start_point boxXY (0, -1) = (1/2, 5) := by
    rw [start_point, h1]
    norm_num [centroid, Prod.ext_iff]
  have he : end_point boxXY (0, -1) = (1/2, 0) := by
    rw [end_point, h2]
    norm_num [centroid, Prod.ext_iff]
  rw [wallLength, hs, he]
  norm_num [real_sqrt_25]

theorem wallLength_boxXY_dir (u : Vec2) (l : ℚ) (h : IsMaxEigenPair boxXY u l) :
    wallLength boxXY u = 5 := by
  obtain ⟨hu1, hu2⟩ := boxXY_dir h
  rcases lt_or_gt_of_ne hu2 with hneg | hpos
  · have hform : u = (-u.2) • ((0 : ℚ), (-1 : ℚ)) := by
      apply Prod.ext
      · simp [Prod.smul_fst, smul_eq_mul, hu1]
      · simp [Prod.smul_snd, smul_eq_mul]
    rw [hform, wallLength_smul boxXY ((0 : ℚ), (-1 : ℚ)) (by linarith : (0:ℚ) < -u.2)]
    exact wallLength_boxXY_neg
  · have hform : u = u.2 • ((0 : ℚ), (1 : ℚ)) := by
      apply Prod.ext
      · simp [Prod.smul_fst, smul_eq_mul, hu1]
      · simp [Prod.smul_snd, smul_eq_mul]
    rw [hform, wallLength_smul boxXY ((0 : ℚ), (1 : ℚ)) hpos]
    exact wallLength_boxXY_pos

theorem boxYX_clusters_pos :
    points_cluster1 boxYX (1, 0) = [(0, 0), (0, 1), (0, 0), (0, 1)] ∧
      points_cluster2 boxYX (1, 0) = [(5, 0), (5, 1), (5, 0), (5, 1)] := by
  constructor
  · rw [points_cluster1]
    norm_num [projVal, dot, centroid, meanProj, projected, boxYX, List.filter, Prod.mk_sub_mk]
  · rw [points_cluster2]
    norm_num [projVal, dot, centroid, meanProj, projected, boxYX, List.filter, Prod.mk_sub_mk]

theorem boxYX_clusters_neg :
    points_cluster1 boxYX (-1, 0) = [(5, 0), (5, 1), (5, 0), (5, 1)] ∧
      points_cluster2 boxYX (-1, 0) = [(0, 0), (0, 1), (0, 0), (0, 1)] := by
  constructor
  · rw [points_cluster1]
    norm_num [projVal, dot, centroid, meanProj, projected, boxYX, List.filter, Prod.mk_sub_mk]
  · rw [points_cluster2]
    norm_num [projVal, dot, centroid, meanProj, projected, boxYX, List.filter, Prod.mk_sub_mk]

theorem wallLength_boxYX_pos : wallLength boxYX (1, 0) = 5 := by
  obtain ⟨h1, h2⟩ := boxYX_clusters_pos
  have hs : start_point boxYX (1, 0) = (0, 1/2) := by
    rw [start_point, h1]
    norm_num [centroid, Prod.ext_iff]
  have he : end_point boxYX (1, 0) = (5, 1/2) := by
    rw [end_point, h2]
    norm_num [centroid, Prod.ext_iff]
  rw [wallLength, hs, he]
  norm_num [real_sqrt_25]

theorem wallLength_boxYX_neg : wallLength boxYX (-1, 0) = 5 := by
  obtain ⟨h1, h2⟩ := boxYX_clusters_neg
  have hs : start_point boxYX (-1, 0) = (5, 1/2) := by
    rw [start_point, h1]
    norm_num [centroid, Prod.ext_iff]
  have he : end_point boxYX (-1, 0) = (0, 1/2) := by
    rw [end_point, h2]
    norm_num [centroid, Prod.ext_iff]
  rw [wallLength, hs, he]
  norm_num [real_sqrt_25]

theorem wallLength_boxYX_dir (u : Vec2) (l : ℚ) (h : IsMaxEigenPair boxYX u l) :
    wallLength boxYX u = 5 := by
  obtain ⟨hu2, hu1⟩ := boxYX_dir h
  rcases lt_or_gt_of_ne hu1 with hneg | hpos
  · have hform : u = (-u.1) • ((-1 : ℚ), (0 : ℚ)) := by
      apply Prod.ext
      · simp [Prod.smul_fst, smul_eq_mul]
      · simp [Prod.smul_snd, smul_eq_mul, hu2]
    rw [hform, wallLength_smul boxYX ((-1 : ℚ), (0 : ℚ)) (by linarith : (0:ℚ) < -u.1)]
    exact wallLength_boxYX_neg
  · have hform : u = u.1 • ((1 : ℚ), (0 : ℚ)) := by
      apply Prod.ext
      · simp [Prod.smul_fst, smul_eq_mul]
      · simp [Prod.smul_snd, smul_eq_mul, hu2]
    rw [hform, wallLength_smul boxYX ((1 : ℚ), (0 : ℚ)) hpos]
    exact wallLength_boxYX_pos

/-- C3: for the 8-point box wall with projected corner points at X ∈ {0, 1},
Y ∈ {0, 5} — and equally with the roles of X and Y swapped — the reducer
outputs a centerline of length 5 within tolerance 1e-6, for every principal
direction `eigh` may return. -/
theorem box_wall_centerline_length (u u' : Vec2) (l l' : ℚ)
    (h : IsMaxEigenPair boxXY u l) (h' : IsMaxEigenPair boxYX u' l') :
    |wallLength boxXY u - 5| ≤ 1e-6 ∧ |wallLength boxYX u' - 5| ≤ 1e-6 := by
  rw [wallLength_boxXY_dir u l h, wallLength_boxYX_dir u' l' h']
  norm_num

theorem boxXY_maxEig : IsMaxEigenPair boxXY (0, 1) (50/7) := by
  refine ⟨by simp [Prod.ext_iff], ?_, ?_⟩
  · rw [boxXY_cov]
    norm_num [covMul, Prod.ext_iff, Prod.smul_fst, Prod.smul_snd, smul_eq_mul]
  · intro m v hv hveq
    rw [boxXY_cov] at hveq
    have h1 : (2/7 : ℚ) * v.1 = m * v.1 := by
      have := congrArg Prod.fst hveq
      simpa [covMul, Prod.smul_fst, smul_eq_mul] using this
    have h2 : (50/7 : ℚ) * v.2 = m * v.2 := by
      have := congrArg Prod.snd hveq
      simpa [covMul, Prod.smul_snd, smul_eq_mul] using this
    by_cases hv1 : v.1 = 0
    · have hv2 : v.2 ≠ 0 := fun h2z => hv (Prod.ext hv1 h2z)
      exact le_of_eq (mul_right_cancel₀ hv2 h2).symm
    · have : (2/7 : ℚ) = m := mul_right_cancel₀ hv1 h1
      rw [← this]
      norm_num

theorem boxYX_maxEig : IsMaxEigenPair boxYX (1, 0) (50/7) := by
  refine ⟨by simp [Prod.ext_iff], ?_, ?_⟩
  · rw [boxYX_cov]
    norm_num [covMul, Prod.ext_iff, Prod.smul_fst, Prod.smul_snd, smul_eq_mul]
  · intro m v hv hveq
    rw [boxYX_cov] at hveq
    have h1 : (50/7 : ℚ) * v.1 = m * v.1 := by
      have := congrArg Prod.fst hveq
      simpa [covMul, Prod.smul_fst, smul_eq_mul] using this
    have h2 : (2/7 : ℚ) * v.2 = m * v.2 := by
      have := congrArg Prod.snd hveq
      simpa [covMul, Prod.smul_snd, smul_eq_mul] using this
    by_cases hv1 : v.1 = 0
    · have hv2 : v.2 ≠ 0 := fun h2z => hv (Prod.ext hv1 h2z)
      have : (2/7 : ℚ) = m := mul_right_cancel₀ hv2 h2
      rw [← this]
      norm_num
    · exact le_of_eq (mul_right_cancel₀ hv1 h1).symm

/-- Witness for C3: the two box clouds with their principal eigenpairs. -/
theorem box_wall_centerline_length_witness :
    (IsMaxEigenPair boxXY (0, 1) (50/7) ∧ IsMaxEigenPair boxYX (1, 0) (50/7)) ∧
      (|wallLength boxXY (0, 1) - 5| ≤ 1e-6 ∧ |wallLength boxYX (1, 0) - 5| ≤ 1e-6) :=
  ⟨⟨boxXY_maxEig, boxYX_maxEig⟩,
    box_wall_centerline_length (0, 1) (1, 0) (50/7) (50/7) boxXY_maxEig boxYX_maxEig⟩

theorem degVs_proj : ∀ v ∈ degVs, projVal degVs (0, 1) v = 0 := by
  intro v hv
  have hv' : v = (1, 2) := by
    simpa [degVs] using hv
  subst hv'
  norm_num [projVal, dot, centroid, degVs, Prod.mk_sub_mk]

theorem degVs_maxEig : IsMaxEigenPair degVs (0, 1) 0 := by
  have hcov : covMatrix degVs = (0, 0, 0) := by
    norm_num [covMatrix, centroid, degVs, Prod.ext_iff]
  refine ⟨by simp [Prod.ext_iff], ?_, ?_⟩
  · rw [hcov]
    norm_num [covMul, Prod.ext_iff, Prod.smul_fst, Prod.smul_snd, smul_eq_mul]
  · intro m v hv hveq
    rw [hcov] at hveq
    have h1 : 0 = m * v.1 := by
      have := congrArg Prod.fst hveq
      simpa [covMul, Prod.smul_fst, smul_eq_mul] using this
    have h2 : 0 = m * v.2 := by
      have := congrArg Prod.snd hveq
      simpa [covMul, Prod.smul_snd, smul_eq_mul] using this
    by_cases hv1 : v.1 = 0
    · have hv2 : v.2 ≠ 0 := fun h2z => hv (Prod.ext hv1 h2z)
      have : m = 0 := (mul_eq_zero.mp h2.symm).resolve_right hv2
      exact le_of_eq this
    · have : m = 0 := (mul_eq_zero.mp h1.symm).resolve_right hv1
      exact le_of_eq this

/-- C4 counterexample: on a cloud whose projected scalars are all identical,
cluster 2 is the whole cloud (it is cluster 1 that is empty), and the start
point — the mean of the empty cluster 1 (NaN at runtime, the junk value `(0, 0)`
in the exact model) — is not the cloud's centroid.  The claimed behaviour
("cluster 2 is the empty cluster"; "length = 0 with start = end = centroid" or a
`DegenerateGeometry` failure) does not hold. -/
theorem degenerate_axis_counterexample :
    IsMaxEigenPair degVs (0, 1) 0 ∧
      (∀ v ∈ degVs, projVal degVs (0, 1) v = 0) ∧
      points_cluster2 degVs (0, 1) = degVs ∧ degVs ≠ [] ∧
      start_point degVs (0, 1) ≠ centroid degVs := by
  have hc1 : points_cluster1 degVs (0, 1) = [] := by
    rw [points_cluster1]
    norm_num [projVal, dot, centroid, meanProj, projected, degVs, List.filter, Prod.mk_sub_mk]
  refine ⟨degVs_maxEig, degVs_proj, ?_, by simp [degVs], ?_⟩
  · rw [points_cluster2]
    norm_num [projVal, dot, centroid, meanProj, projected, degVs, List.filter, Prod.mk_sub_mk]
  · have hs : start_point degVs (0, 1) = (0, 0) := by
      rw [start_point, hc1]
      norm_num [centroid, Prod.ext_iff]
    have hcent : centroid degVs = (1, 2) := by
      norm_num [centroid, degVs, Prod.ext_iff]
    rw [hs, hcent]
    simp [Prod.ext_iff]

/-- C4 (amended): if every vertex of a wall's 2-D cloud produces an identical
projected scalar, then cluster 1 (scalars strictly below the mean) — not
cluster 2 — is the empty cluster, cluster 2 contains every vertex, and the end
point equals the cloud's centroid; the code does not fail and does not return
start = end = centroid (the start point is the mean of the empty cluster 1). -/
theorem degenerate_axis_clusters (vs : List Vec2) (u : Vec2) (c : ℚ)
    (h : ∀ v ∈ vs, projVal vs u v = c) :
    points_cluster1 vs u = [] ∧ points_cluster2 vs u = vs ∧
      end_point vs u = centroid vs := by
  by_cases h0 : vs = []
  · subst h0
    refine ⟨rfl, rfl, rfl⟩
  · have hn : ((vs.length : ℚ)) ≠ 0 := by
      exact_mod_cast Nat.pos_iff_ne_zero.mp (List.length_pos.mpr h0)
    have hm : meanProj vs u = c := by
      unfold meanProj projected
      rw [List.map_congr_left h, sum_map_const, List.length_map, mul_comm, mul_div_assoc,
        div_self hn, mul_one]
    have h1 : points_cluster1 vs u = [] := by
      rw [points_cluster1]
      apply List.filter_eq_nil_iff.mpr
      intro a ha
      simp [h a ha, hm]
    have h2 : points_cluster2 vs u = vs := by
      rw [points_cluster2]
      apply List.filter_eq_self.mpr
      intro a ha
      simp [h a ha, hm]
    exact ⟨h1, h2, by rw [end_point, h2]⟩

/-- Witness for C4's amended statement: the coincident-point cloud. -/
theorem degenerate_axis_clusters_witness :
    (∀ v ∈ degVs, projVal degVs (0, 1) v = 0) ∧
      (points_cluster1 degVs (0, 1) = [] ∧ points_cluster2 degVs (0, 1) = degVs ∧
        end_point degVs (0, 1) = centroid degVs) :=
  ⟨degVs_proj, degenerate_axis_clusters degVs (0, 1) 0 degVs_proj⟩

theorem twoVs_cov : covMatrix twoVs = (1/2, 0, 0) := by
  norm_num [covMatrix, centroid, twoVs, Prod.ext_iff]

theorem twoVs_maxEig : IsMaxEigenPair twoVs (1, 0) (1/2) := by
  refine ⟨by simp [Prod.ext_iff], ?_, ?_⟩
  · rw [twoVs_cov]
    norm_num [covMul, Prod.ext_iff, Prod.smul_fst, Prod.smul_snd, smul_eq_mul]
  · intro m v hv hveq
    rw [twoVs_cov] at hveq
    have h1 : (1/2 : ℚ) * v.1 = m * v.1 := by
      have := congrArg Prod.fst hveq
      simpa [covMul, Prod.smul_fst, smul_eq_mul] using this
    have h2 : 0 = m * v.2 := by
      have := congrArg Prod.snd hveq
      simpa [covMul, Prod.smul_snd, smul_eq_mul] using this
    by_cases hv1 : v.1 = 0
    · have hv2 : v.2 ≠ 0 := fun h2z => hv (Prod.ext hv1 h2z)
      have : m = 0 := (mul_eq_zero.mp h2.symm).resolve_right hv2
      rw [this]
      norm_num
    · exact le_of_eq (mul_right_cancel₀ hv1 h1).symm

theorem twoVs_clusters_pos :
    points_cluster1 twoVs (1, 0) = [(0, 0)] ∧ points_cluster2 twoVs (1, 0) = [(1, 0)] := by
  constructor
  · rw [points_cluster1]
    norm_num [projVal, dot, centroid, meanProj, projected, twoVs, List.filter, Prod.mk_sub_mk]
  · rw [points_cluster2]
    norm_num [projVal, dot, centroid, meanProj, projected, twoVs, List.filter, Prod.mk_sub_mk]

theorem twoVs_clusters_neg :
    points_cluster1 twoVs (-1, 0) = [(1, 0)] ∧ points_cluster2 twoVs (-1, 0) = [(0, 0)] := by
  constructor
  · rw [points_cluster1]
    norm_num [projVal, dot, centroid, meanProj, projected, twoVs, List.filter, Prod.mk_sub_mk]
  · rw [points_cluster2]
    norm_num [projVal, dot, centroid, meanProj, projected, twoVs, List.filter, Prod.mk_sub_mk]

theorem twoVs_dir {u : Vec2} {l : ℚ} (h : IsMaxEigenPair twoVs u l) : u.2 = 0 ∧ u.1 ≠ 0 := by
  obtain ⟨hu, heq, hmax⟩ := h
  rw [twoVs_cov] at heq hmax
  have hhalf : (1/2 : ℚ) ≤ l := by
    apply hmax (1/2) (1, 0)
    · simp [Prod.ext_iff]
    · norm_num [covMul, Prod.ext_iff, Prod.smul_fst, Prod.smul_snd, smul_eq_mul]
  have h2 : 0 = l * u.2 := by
    have := congrArg Prod.snd heq
    simpa [covMul, Prod.smul_snd, smul_eq_mul] using this
  have hu2 : u.2 = 0 := by
    have hl : l ≠ 0 := by linarith
    exact (mul_eq_zero.mp h2.symm).resolve_left hl
  refine ⟨hu2, fun hu1 => hu (Prod.ext hu1 hu2)⟩

/-- C5 (amended): the code performs no minimum-vertex-count check and defines no
`InsufficientGeometry` failure; a wall cloud with fewer than 3 vertices is still
reduced.  For the 2-vertex cloud [(0, 0), (1, 0)] and any principal direction
`eigh` may return, the reducer returns the segment joining the two vertices
(orientation depending on the eigenvector's sign) with length 1. -/
theorem insufficient_geometry_amended (u : Vec2) (l : ℚ) (h : IsMaxEigenPair twoVs u l) :
    wallLength twoVs u = 1 ∧
      ((start_point twoVs u = (0, 0) ∧ end_point twoVs u = (1, 0)) ∨
        (start_point twoVs u = (1, 0) ∧ end_point twoVs u = (0, 0))) := by
  obtain ⟨hu2, hu1⟩ := twoVs_dir h
  rcases lt_or_gt_of_ne hu1 with hneg | hpos
  · have hform : u = (-u.1) • ((-1 : ℚ), (0 : ℚ)) := by
      apply Prod.ext
      · simp [Prod.smul_fst, smul_eq_mul]
      · simp [Prod.smul_snd, smul_eq_mul, hu2]
    have hcpos : (0:ℚ) < -u.1 := by linarith
    obtain ⟨h1, h2⟩ := twoVs_clusters_neg
    have hs : start_point twoVs u = (1, 0) := by
      rw [hform, start_point_smul twoVs ((-1 : ℚ), (0 : ℚ)) hcpos, start_point, h1]
      norm_num [centroid, Prod.ext_iff]
    have he : end_point twoVs u = (0, 0) := by
      rw [hform, end_point_smul twoVs ((-1 : ℚ), (0 : ℚ)) hcpos, end_point, h2]
      norm_num [centroid, Prod.ext_iff]
    refine ⟨?_, Or.inr ⟨hs, he⟩⟩
    rw [wallLength, hs, he]
    norm_num
  · have hform : u = u.1 • ((1 : ℚ), (0 : ℚ)) := by
      apply Prod.ext
      · simp [Prod.smul_fst, smul_eq_mul]
      · simp [Prod.smul_snd, smul_eq_mul, hu2]
    obtain ⟨h1, h2⟩ := twoVs_clusters_pos
    have hs : start_point twoVs u = (0, 0) := by
      rw [hform, start_point_smul twoVs ((1 : ℚ), (0 : ℚ)) hpos, start_point, h1]
      norm_num [centroid, Prod.ext_iff]
    have he : end_point twoVs u = (1, 0) := by
      rw [hform, end_point_smul twoVs ((1 : ℚ), (0 : ℚ)) hpos, end_point, h2]
      norm_num [centroid, Prod.ext_iff]
    refine ⟨?_, Or.inl ⟨hs, he⟩⟩
    rw [wallLength, hs, he]
    norm_num

/-- Witness for C5's amended statement: the 2-vertex cloud with eigenpair
((1, 0), 1/2). -/
theorem insufficient_geometry_amended_witness :
    IsMaxEigenPair twoVs (1, 0) (1/2) ∧
      (wallLength twoVs (1, 0) = 1 ∧
        ((start_point twoVs (1, 0) = (0, 0) ∧ end_point twoVs (1, 0) = (1, 0)) ∨
          (start_point twoVs (1, 0) = (1, 0) ∧ end_point twoVs (1, 0) = (0, 0)))) :=
  ⟨twoVs_maxEig, insufficient_geometry_amended (1, 0) (1/2) twoVs_maxEig⟩

theorem getD_map {α β : Type} (f : α → β) (l : List α) (d : α) (i : ℕ) :
    (l.map f).getD i (f d) = f (l.getD i d) := by
  induction l generalizing i with
  | nil => simp [List.getD]
  | cons a t ih =>
    cases i with
    | zero => simp
    | succ n => simp only [List.map_cons, List.getD_cons_succ, ih n]

theorem reshape3_length {α : Type} : (l : List α) → (reshape3 l).length = l.length / 3
  | [] => by simp [reshape3]
  | [a] => by simp [reshape3]
  | [a, b] => by simp [reshape3]
  | a :: b :: c :: rest => by
    have ih := reshape3_length rest
    simp only [reshape3, List.length_cons, ih]
    omega

/-- C6: for every mesh with a non-empty point sequence, the projection returns
exactly one 2-D vertex per 3-D point (the X, Y pair of the corresponding point,
in the same order — out-of-range positions agree on the defaults) and a face
index list structurally identical to the mesh's face list. -/
theorem project_preserves_counts_and_faces (ty nm : String) (m : Mesh3D) (e : ℚ)
    (h : meshPoints m ≠ []) :
    ((projectMesh ty nm m e).vertices.length = (meshPoints m).length ∧
      (meshPoints m).length = m.verts.length / 3) ∧
      (∀ i : ℕ, (projectMesh ty nm m e).vertices.getD i (0, 0)
        = vert2 ((meshPoints m).getD i (0, 0, 0))) ∧
      (projectMesh ty nm m e).faces = meshFaces m := by
  refine ⟨⟨?_, reshape3_length m.verts⟩, ?_, rfl⟩
  · simp [projectMesh]
  · intro i
    exact getD_map vert2 (meshPoints m) (0, 0, 0) i

/-- Witness for C6: the concrete two-point mesh. -/
theorem project_preserves_counts_and_faces_witness :
    meshPoints demoMesh ≠ [] ∧
      (((projectMesh "Slab" "S" demoMesh 0).vertices.length = (meshPoints demoMesh).length ∧
        (meshPoints demoMesh).length = demoMesh.verts.length / 3) ∧
        (∀ i : ℕ, (projectMesh "Slab" "S" demoMesh 0).vertices.getD i (0, 0)
          = vert2 ((meshPoints demoMesh).getD i (0, 0, 0))) ∧
        (projectMesh "Slab" "S" demoMesh 0).faces = meshFaces demoMesh) := by
  have h : meshPoints demoMesh ≠ [] := by
    simp [meshPoints, demoMesh, reshape3]
  exact ⟨h, project_preserves_counts_and_faces "Slab" "S" demoMesh 0 h⟩

theorem round2_2001 : round2 (2.001 : ℚ) = 2 := by
  have hf : ⌊(2.001 : ℚ) * 100 + 1 / 2⌋ = 200 := by
    rw [Int.floor_eq_iff]
    norm_num
  rw [round2, hf]
  norm_num

theorem round2_2002 : round2 (2.002 : ℚ) = 2 := by
  have hf : ⌊(2.002 : ℚ) * 100 + 1 / 2⌋ = 200 := by
    rw [Int.floor_eq_iff]
    norm_num
  rw [round2, hf]
  norm_num

theorem round2_215 : round2 (2.15 : ℚ) = 2.15 := by
  have hf : ⌊(2.15 : ℚ) * 100 + 1 / 2⌋ = 215 := by
    rw [Int.floor_eq_iff]
    norm_num
  rw [round2, hf]
  norm_num

/-- C7: under elevation-fallback grouping an element belongs to the group keyed
`k` exactly when its elevation rounds (2 decimals) to `k`; elements at 2.001 and
2.002 therefore share the group keyed 2.00, while 2.15 keys a different group. -/
theorem elevation_grouping (es : List ProjectedElement) (k : ℚ) (e : ProjectedElement) :
    (e ∈ elevationElements es k ↔ e ∈ es ∧ round2 e.elevation = k) ∧
      round2 (2.001 : ℚ) = round2 (2.002 : ℚ) ∧
      elevationElements [demoA, demoB, demoC] (round2 (2.001 : ℚ)) = [demoA, demoB] ∧
      elevationElements [demoA, demoB, demoC] (round2 (2.15 : ℚ)) = [demoC] ∧
      round2 (2.001 : ℚ) ≠ round2 (2.15 : ℚ) := by
  refine ⟨?_, ?_, ?_, ?_, ?_⟩
  · simp [elevationElements, List.mem_filter]
  · rw [round2_2001, round2_2002]
  · rw [round2_2001]
    have hA : round2 demoA.elevation = 2 := round2_2001
    have hB : round2 demoB.elevation = 2 := round2_2002
    have hC : round2 demoC.elevation = 2.15 := round2_215
    show List.filter _ _ = _
    simp only [List.filter_cons, List.filter_nil, decide_eq_true_eq]
    rw [if_pos hA, if_pos hB, if_neg (by rw [hC]; norm_num)]
  · rw [round2_215]
    have hA : round2 demoA.elevation = 2 := round2_2001
    have hB : round2 demoB.elevation = 2 := round2_2002
    have hC : round2 demoC.elevation = 2.15 := round2_215
    show List.filter _ _ = _
    simp only [List.filter_cons, List.filter_nil, decide_eq_true_eq]
    rw [if_neg (by rw [hA]; norm_num), if_neg (by rw [hB]; norm_num), if_pos hC]
  · rw [round2_2001, round2_215]
    norm_num

/-- C8: the emitted outline primitives are exactly one per unique undirected
edge — membership in the edge set is existence of a consecutive (wrap-around
included) vertex pair producing it, canonicalization ignores direction, and the
two-triangle quad sharing one diagonal yields exactly 5 edges, not 6. -/
theorem edge_dedup (fs : List (List ℕ)) (e : ℕ × ℕ) (a b : ℕ) :
    (e ∈ edges fs ↔ ∃ f ∈ fs, ∃ i < f.length,
        e = sortedEdge (f.getD i 0) (f.getD ((i + 1) % f.length) 0)) ∧
      sortedEdge a b = sortedEdge b a ∧
      (edges [[0, 1, 2], [0, 2, 3]]).card = 5 := by
  refine ⟨?_, ?_, ?_⟩
  · simp only [edges, List.mem_toFinset, List.mem_flatten, List.mem_map]
    constructor
    · rintro ⟨l, ⟨f, hf, rfl⟩, hel⟩
      simp only [faceEdges, List.mem_map, List.mem_range] at hel
      obtain ⟨i, hi, rfl⟩ := hel
      exact ⟨f, hf, i, hi, rfl⟩
    · rintro ⟨f, hf, i, hi, rfl⟩
      refine ⟨faceEdges f, ⟨f, hf, rfl⟩, ?_⟩
      simp only [faceEdges, List.mem_map, List.mem_range]
      exact ⟨i, hi, rfl⟩
  · simp only [sortedEdge]
    split_ifs with h1 h2 h3
    · rw [Nat.le_antisymm h1 h2]
    · rfl
    · rfl
    · omega
  · decide

/-- C9: an element lacking a usable name gets the display name "Unnamed" in its
projected element info (wall and slab alike) and in its WallSegment row. -/
theorem unnamed_default (e : IfcElement) (m : Mesh3D) (se : ℚ) (u : Vec2)
    (h : e.name = none) :
    (wallElementInfo e m se).name = "Unnamed" ∧ (slabElementInfo e m).name = "Unnamed" ∧
      (wallRowOf (wallElementInfo e m se) u).name = "Unnamed" := by
  refine ⟨?_, ?_, ?_⟩ <;>
    simp [wallElementInfo, slabElementInfo, wallRowOf, projectMesh, elementDisplayName, h]

/-- Witness for C9: a nameless element with an empty mesh. -/
theorem unnamed_default_witness :
    (⟨none⟩ : IfcElement).name = none ∧
      ((wallElementInfo ⟨none⟩ ⟨[], []⟩ 0).name = "Unnamed" ∧
        (slabElementInfo ⟨none⟩ ⟨[], []⟩).name = "Unnamed" ∧
        (wallRowOf (wallElementInfo ⟨none⟩ ⟨[], []⟩ 0) (0, 1)).name = "Unnamed") :=
  ⟨rfl, unnamed_default ⟨none⟩ ⟨[], []⟩ 0 (0, 1) rfl⟩

/-- C10: a `wall_data` row is attributed to a selected storey exactly when its
stored (2-decimal-rounded) elevation equals the storey's raw elevation; hence
for a storey whose elevation differs from its own rounding, the per-storey
filter selects zero of that storey's rows even when such rows exist. -/
theorem level_walls_filter (rows : List WallRow) (se : ℚ)
    (hr : ∀ r ∈ rows, r.elevation = round2 se) (hne : round2 se ≠ se) :
    (∀ r : WallRow, r ∈ levelWalls rows se ↔ r ∈ rows ∧ r.elevation = se) ∧
      levelWalls rows se = [] := by
  constructor
  · intro r
    simp [levelWalls, List.mem_filter]
  · rw [levelWalls]
    apply List.filter_eq_nil_iff.mpr
    intro r hrm
    simp [hr r hrm, hne]

theorem round2_2125 : round2 (2.125 : ℚ) ≠ (2.125 : ℚ) := by
  have hf : ⌊(2.125 : ℚ) * 100 + 1 / 2⌋ = 213 := by
    rw [Int.floor_eq_iff]
    norm_num
  rw [round2, hf]
  norm_num

/-- Witness for C10: one wall row of a storey at elevation 2.125 (which rounds
to 2.13): the simplified-plot filter for that storey selects nothing. -/
theorem level_walls_filter_witness :
    (∀ r ∈ [wallRowOf (wallElementInfo ⟨some "W"⟩ ⟨[], []⟩ (2.125 : ℚ)) (0, 1)],
        r.elevation = round2 (2.125 : ℚ)) ∧
      round2 (2.125 : ℚ) ≠ (2.125 : ℚ) ∧
      ((∀ r : WallRow,
          r ∈ levelWalls [wallRowOf (wallElementInfo ⟨some "W"⟩ ⟨[], []⟩ (2.125 : ℚ)) (0, 1)]
              (2.125 : ℚ)
            ↔ r ∈ [wallRowOf (wallElementInfo ⟨some "W"⟩ ⟨[], []⟩ (2.125 : ℚ)) (0, 1)]
              ∧ r.elevation = (2.125 : ℚ)) ∧
        levelWalls [wallRowOf (wallElementInfo ⟨some "W"⟩ ⟨[], []⟩ (2.125 : ℚ)) (0, 1)]
            (2.125 : ℚ) = []) := by
  have hr : ∀ r ∈ [wallRowOf (wallElementInfo ⟨some "W"⟩ ⟨[], []⟩ (2.125 : ℚ)) (0, 1)],
      r.elevation = round2 (2.125 : ℚ) := by
    intro r hrm
    have : r = wallRowOf (wallElementInfo ⟨some "W"⟩ ⟨[], []⟩ (2.125 : ℚ)) (0, 1) := by
      simpa using hrm
    rw [this]
    rfl
  exact ⟨hr, round2_2125, level_walls_filter _ (2.125 : ℚ) hr round2_2125⟩

/-- C5 counterexample: the code has no vertex-count check — on the 2-vertex
cloud it does not fail but returns a complete WallSegment: start (0, 0),
end (1, 0), length 1. -/
theorem insufficient_geometry_counterexample :
    twoVs.length < 3 ∧ IsMaxEigenPair twoVs (1, 0) (1/2) ∧
      start_point twoVs (1, 0) = (0, 0) ∧ end_point twoVs (1, 0) = (1, 0) ∧
      wallLength twoVs (1, 0) = 1 := by
  obtain ⟨h1, h2⟩ := twoVs_clusters_pos
  have hs : start_point twoVs (1, 0) = (0, 0) := by
    rw [start_point, h1]
    norm_num [centroid, Prod.ext_iff]
  have he : end_point twoVs (1, 0) = (1, 0) := by
    rw [end_point, h2]
    norm_num [centroid, Prod.ext_iff]
  refine ⟨by norm_num [twoVs], twoVs_maxEig, hs, he, ?_⟩
  rw [wallLength, hs, he]
  norm_num

end IfcExtract
